import Mathlib

/-!
Verification of the carbon-aware model-selection client
(`client/src/ChatCarbon.jsx` and `client/src/Dashboard.jsx`).

The selection engine is the loop inside `handleSingleEstimate`, which fans a
prompt out to the configured models, scores each successful JSON result with
`score = carbon + (1 - accuracyNormalized)`, and keeps the strict running
minimum.  The aggregator is `calculateStats` in `Dashboard.jsx`.  Both are
embedded here as pure functions over rational numbers; JavaScript's falsy
`||` defaulting and optional chaining are modelled explicitly.
-/

/-- One `/estimate` JSON response body, with the fields the client reads.
`Option` models an absent (`undefined`/`null`) field; `accuracy_scores_overall`
stands for the optional chain `accuracy_scores?.overall_accuracy`. -/
structure EstimateResult where
  carbon_emitted_kgco2 : Option ℚ
  carbon_emitted_grams : Option ℚ
  energy_consumed_kwh : Option ℚ
  total_tokens : Option ℕ
  overall_accuracy : Option ℚ
  accuracy_scores_overall : Option ℚ
  response_text : String
  model_name : Option String
  model : Option String
  deriving DecidableEq, Repr

/-- JavaScript `x || d` on an optional number: `undefined`, `null` and `0`
are falsy and fall through to the default. -/
def orQ (x : Option ℚ) (d : ℚ) : ℚ :=
  match x with
  | none => d
  | some v => if v = 0 then d else v

/-- JavaScript `x || d` on an optional string: `undefined`, `null` and the
empty string are falsy and fall through to the default. -/
def orS (x : Option String) (d : String) : String :=
  match x with
  | none => d
  | some s => if s = "" then d else s

/-- `result.carbon_emitted_kgco2 || result.carbon_emitted_grams || 0`
(ChatCarbon.jsx line 123). -/
def carbonOf (r : EstimateResult) : ℚ :=
  orQ r.carbon_emitted_kgco2 (orQ r.carbon_emitted_grams 0)

/-- `result.accuracy_scores?.overall_accuracy || result.overall_accuracy || 0`
(ChatCarbon.jsx line 124). -/
def chatAcc (r : EstimateResult) : ℚ :=
  orQ r.accuracy_scores_overall (orQ r.overall_accuracy 0)

/-- `accuracy > 1 ? accuracy / 100 : accuracy` (ChatCarbon.jsx line 126). -/
def accuracyNormalized (r : EstimateResult) : ℚ :=
  if 1 < chatAcc r then chatAcc r / 100 else chatAcc r

/-- `const score = carbon + (1 - accuracyNormalized)` (ChatCarbon.jsx
line 129).  Lower is better. -/
def scoreOf (r : EstimateResult) : ℚ :=
  carbonOf r + (1 - accuracyNormalized r)

/-- `accuracy > 1 ? accuracy : accuracy * 100` (ChatCarbon.jsx line 131):
the 0-100 display form of a raw accuracy, which is also the spec's
`normalize_accuracy` rule ("> 1 means already a percentage, otherwise a
fraction times 100"). -/
def normalizeAccuracy (a : ℚ) : ℚ :=
  if 1 < a then a else a * 100

/-- The displayed (0-100) accuracy of a result. -/
def accuracyDisplay (r : EstimateResult) : ℚ :=
  normalizeAccuracy (chatAcc r)

/-- One element pushed onto `comparisonResults` (ChatCarbon.jsx line 132). -/
structure ComparisonEntry where
  model : String
  carbon : ℚ
  accuracy : ℚ
  deriving DecidableEq, Repr

/-- The loop variables of `handleSingleEstimate`'s selection loop:
`bestModel`, `bestResult`, `bestScore` (where `none` stands for the initial
`Number.POSITIVE_INFINITY`), and the accumulated `comparisonResults`. -/
structure SelState where
  bestModel : String
  bestResult : Option EstimateResult
  bestScore : Option ℚ
  comparisonResults : List ComparisonEntry
  deriving DecidableEq, Repr

/-- `score < bestScore` where `bestScore` may still be `+∞`. -/
def beatsBest (sc : ℚ) (best : Option ℚ) : Bool :=
  match best with
  | none => true
  | some b => decide (sc < b)

/-- One iteration of the `for (const modelName of filteredModels)` loop
(ChatCarbon.jsx lines 95-145).  A `none` outcome is a model whose fetch was
not `response.ok` or threw: the loop `continue`s, recording nothing.  A
`some` outcome pushes a comparison entry and takes the strict minimum of the
score. -/
def selStep (s : SelState) (p : String × Option EstimateResult) : SelState :=
  match p.2 with
  | none => s
  | some r =>
    let sc := scoreOf r
    let s' := { s with
      comparisonResults :=
        s.comparisonResults ++ [⟨p.1, carbonOf r, accuracyDisplay r⟩] }
    if beatsBest sc s.bestScore then
      { s' with bestModel := p.1, bestResult := some r, bestScore := some sc }
    else s'

/-- Initial loop state: `bestModel = filteredModels[0]`, `bestResult = null`,
`bestScore = Infinity`, `comparisonResults = []`. -/
def initSel (rs : List (String × Option EstimateResult)) : SelState :=
  { bestModel := (rs.headD ("", none)).1
    bestResult := none
    bestScore := none
    comparisonResults := [] }

/-- The whole selection loop: each configured model paired with the outcome
of its `/estimate` call, processed in configured order. -/
def runSelection (rs : List (String × Option EstimateResult)) : SelState :=
  rs.foldl selStep (initSel rs)

/-- `e.overall_accuracy`, falling back (only on `undefined`/`null`, not on
`0`) to `e.accuracy_scores?.overall_accuracy` (Dashboard.jsx lines 29-32
and 62-65). -/
def dashAcc (e : EstimateResult) : Option ℚ :=
  match e.overall_accuracy with
  | some a => some a
  | none => e.accuracy_scores_overall

/-- `accuracy && accuracy >= 0 && accuracy <= 100 ? accuracy : null`
(Dashboard.jsx line 34 and the guard at line 67): the accuracy is kept only
when present, truthy (nonzero) and within 0-100. -/
def pickAcc (e : EstimateResult) : Option ℚ :=
  match dashAcc e with
  | none => none
  | some a => if a ≠ 0 ∧ 0 ≤ a ∧ a ≤ 100 then some a else none

/-- `validAccuracies` (Dashboard.jsx lines 27-36): map each estimate to its
guarded accuracy and drop the `null`s. -/
def validAccuracies (l : List EstimateResult) : List ℚ :=
  l.filterMap pickAcc

/-- `e.model_name || e.model || "unknown"` (Dashboard.jsx line 46). -/
def modelKey (e : EstimateResult) : String :=
  orS e.model_name (orS e.model "unknown")

/-- One value of the `modelBreakdown` object (Dashboard.jsx lines 48-55). -/
structure ModelEntry where
  count : ℕ
  totalCarbon : ℚ
  totalEnergy : ℚ
  totalAccuracy : ℚ
  accuracyCount : ℕ
  deriving DecidableEq, Repr

/-- The freshly initialised breakdown entry (all zero). -/
def entry0 : ModelEntry := ⟨0, 0, 0, 0, 0⟩

/-- The per-estimate update of a breakdown entry (Dashboard.jsx lines
57-70): bump the count, add carbon and energy, and add the accuracy (and
bump `accuracyCount`) only when the accuracy passes the validity guard. -/
def updEntry (en : ModelEntry) (e : EstimateResult) : ModelEntry :=
  { count := en.count + 1
    totalCarbon := en.totalCarbon + orQ e.carbon_emitted_kgco2 0
    totalEnergy := en.totalEnergy + orQ e.energy_consumed_kwh 0
    totalAccuracy := en.totalAccuracy + (pickAcc e).getD 0
    accuracyCount := en.accuracyCount + if (pickAcc e).isSome then 1 else 0 }

/-- Updating the JavaScript object `modelBreakdown` at one key, modelled as
an insertion-ordered association list: update the first binding of the key
in place, or append a fresh binding when the key is absent. -/
def updateAssoc (k : String) (e : EstimateResult) :
    List (String × ModelEntry) → List (String × ModelEntry)
  | [] => [(k, updEntry entry0 e)]
  | (k', en) :: rest =>
    if k' = k then (k', updEntry en e) :: rest
    else (k', en) :: updateAssoc k e rest

/-- The `estimates.forEach` building `modelBreakdown` (Dashboard.jsx lines
42-71), as the insertion-ordered association list `Object.entries` later
iterates. -/
def breakdownOf (l : List EstimateResult) : List (String × ModelEntry) :=
  l.foldl (fun m e => updateAssoc (modelKey e) e m) []

/-- One element of `topModels` (Dashboard.jsx lines 74-80). -/
structure TopModel where
  name : String
  count : ℕ
  carbonPerRequest : ℚ
  accuracyAvg : ℚ
  deriving DecidableEq, Repr

/-- The `.map(([name, data]) => ...)` step of `topModels`:
`carbonPerRequest = totalCarbon / count` (no textual zero guard) and
`accuracyAvg = accuracyCount > 0 ? totalAccuracy / accuracyCount : 0`. -/
def perfOf (p : String × ModelEntry) : TopModel :=
  { name := p.1
    count := p.2.count
    carbonPerRequest := p.2.totalCarbon / (p.2.count : ℚ)
    accuracyAvg :=
      if 0 < p.2.accuracyCount then p.2.totalAccuracy / (p.2.accuracyCount : ℚ)
      else 0 }

/-- Insert into a list already sorted by `count` descending, after every
element with a greater-or-equal count (the placement a stable sort under
the comparator `(a, b) => b.count - a.count` gives a later element). -/
def insertByCountDesc (x : TopModel) : List TopModel → List TopModel
  | [] => [x]
  | y :: ys => if y.count < x.count then x :: y :: ys else y :: insertByCountDesc x ys

/-- `.sort((a, b) => b.count - a.count)` (Dashboard.jsx line 81): stable
sort by request count descending. -/
def sortByCountDesc : List TopModel → List TopModel
  | [] => []
  | x :: xs => insertByCountDesc x (sortByCountDesc xs)

/-- `topModels` (Dashboard.jsx lines 74-81). -/
def topModelsOf (l : List EstimateResult) : List TopModel :=
  sortByCountDesc ((breakdownOf l).map perfOf)

/-- The stats object produced by `calculateStats` (Dashboard.jsx lines
20-94): counts and sums over the estimate history, the average of the valid
accuracies (0 when there are none), the per-model breakdown and the sorted
top-model list. -/
structure Stats where
  totalRequests : ℕ
  totalCarbon : ℚ
  totalEnergy : ℚ
  averageAccuracy : ℚ
  modelBreakdown : List (String × ModelEntry)
  topModels : List TopModel
  deriving DecidableEq, Repr

/-- `calculateStats` (Dashboard.jsx lines 20-94) as a pure function of the
`estimates` history.  The `reduce((sum, e) => sum + (e.f || 0), 0)` totals
are left folds with JavaScript falsy defaulting. -/
def calculateStats (l : List EstimateResult) : Stats :=
  { totalRequests := l.length
    totalCarbon := l.foldl (fun s e => s + orQ e.carbon_emitted_kgco2 0) 0
    totalEnergy := l.foldl (fun s e => s + orQ e.energy_consumed_kwh 0) 0
    averageAccuracy :=
      if 0 < (validAccuracies l).length then
        (validAccuracies l).foldl (· + ·) 0 / ((validAccuracies l).length : ℚ)
      else 0
    modelBreakdown := breakdownOf l
    topModels := topModelsOf l }

/-- JavaScript `s.trim()`: drop whitespace from both ends. -/
def jsTrim (s : String) : String :=
  ⟨((s.toList.dropWhile Char.isWhitespace).reverse.dropWhile
      Char.isWhitespace).reverse⟩

/-- The image-keyword list of `detectPromptType` (ChatCarbon.jsx line 30). -/
def imageKeywords : List String :=
  ["image", "picture", "photo", "draw", "generate an image", "show me",
   "visualize", "create a picture", "generate a photo", "generate a drawing"]

/-- Does the pattern (first argument) match at the head of the text? -/
def leadMatch : List Char → List Char → Bool
  | [], _ => true
  | _ :: _, [] => false
  | p :: ps, c :: cs => p == c && leadMatch ps cs

/-- Does the pattern occur contiguously anywhere in the text? -/
def infixMatch (pat : List Char) : List Char → Bool
  | [] => pat.isEmpty
  | c :: cs => leadMatch pat (c :: cs) || infixMatch pat cs

/-- JavaScript `s.includes(pat)`: `pat` occurs contiguously in `s`. -/
def strIncludes (s pat : String) : Bool :=
  infixMatch pat.toList s.toList

/-- JavaScript `s.toLowerCase()`, character by character. -/
def jsToLower (s : String) : String :=
  ⟨s.toList.map Char.toLower⟩

/-- `detectPromptType` (ChatCarbon.jsx lines 28-33): "image" when any
keyword occurs in the lower-cased prompt, otherwise "text". -/
def detectPromptType (prompt : String) : String :=
  if imageKeywords.any (fun k => strIncludes (jsToLower prompt) k) then "image"
  else "text"

/-- A chat message of type "estimate" (ChatCarbon.jsx lines 173-184).  The
`accuracy` field stores the winner's accuracy data (`accuracy_scores ||
overall_accuracy || {}`), here reduced to its overall number when present. -/
structure Message where
  mid : ℕ
  prompt : String
  model : String
  carbon : ℚ
  energy : ℚ
  tokens : ℕ
  maccuracy : Option ℚ
  response_text : String
  deriving DecidableEq, Repr

/-- A chat (ChatCarbon.jsx lines 162-166). -/
structure Chat where
  cid : ℕ
  title : String
  messages : List Message
  deriving DecidableEq, Repr

/-- The React state `handleSingleEstimate` reads and writes.  `errorMsg`
models the `error` string state, `comparisonResults` the nullable
comparison list, `availableModels` the configured (whitelisted) models in
order. -/
structure AppState where
  input : String
  availableModels : List String
  chats : List Chat
  activeChatId : Option ℕ
  allEstimates : List EstimateResult
  errorMsg : String
  comparisonResults : Option (List ComparisonEntry)
  showComparison : Bool
  loading : Bool
  deriving DecidableEq, Repr

/-- The message built for the winning result (ChatCarbon.jsx lines
173-184), with `Date.now()` passed in as `now`. -/
def mkMessage (now : ℕ) (promptText bestModel : String) (best : EstimateResult) :
    Message :=
  { mid := now
    prompt := promptText
    model := bestModel
    carbon := orQ best.carbon_emitted_kgco2 (orQ best.carbon_emitted_grams 0)
    energy := orQ best.energy_consumed_kwh 0
    tokens := best.total_tokens.getD 0
    maccuracy := match best.accuracy_scores_overall with
      | some a => some a
      | none => best.overall_accuracy
    response_text := best.response_text }

/-- `handleSingleEstimate` (ChatCarbon.jsx lines 63-204) as a state
transformer.  `outcomes` is the environment: the parsed JSON result of each
model's `/estimate` call, `none` for a non-ok response or a thrown fetch
error.  `now` stands for `Date.now()`.  Returns the new state together with
the list of models a request was dispatched to. -/
def handleSingleEstimate (outcomes : String → Option EstimateResult)
    (now : ℕ) (st : AppState) : AppState × List String :=
  if jsTrim st.input = "" then (st, [])
  else
    let st0 := { st with loading := true, errorMsg := "" }
    if detectPromptType st.input = "image" then
      ({ st0 with errorMsg := "Image generation will be available soon.",
                  loading := false }, [])
    else if st.availableModels.isEmpty then
      ({ st0 with
          errorMsg := "No supported text generation models are available.",
          loading := false }, [])
    else
      let sel := runSelection (st.availableModels.map fun m => (m, outcomes m))
      match sel.bestResult with
      | none =>
        ({ st0 with
            errorMsg := "No successful results from any model. Please check your API keys and ensure models are available.",
            loading := false }, st.availableModels)
      | some best =>
        let st1 := { st0 with
          comparisonResults := some sel.comparisonResults
          showComparison := true }
        let withChat : ℕ × AppState :=
          match st1.activeChatId with
          | some cid => (cid, st1)
          | none =>
            (now, { st1 with
              chats := st1.chats ++
                [{ cid := now, title := st.input.take 30 ++ "...", messages := [] }]
              activeChatId := some now })
        let msg := mkMessage now st.input sel.bestModel best
        let st3 := { withChat.2 with
          chats := withChat.2.chats.map fun (c : Chat) =>
            if c.cid = withChat.1 then { c with messages := c.messages ++ [msg] }
            else c }
        ({ st3 with
            allEstimates := st3.allEstimates ++ [best]
            input := ""
            loading := false }, st.availableModels)

/-- Invariant of the selection loop after processing the prefix `rs`:
the best score is `+∞` exactly while no success has been seen; and when a
best result exists, its stored score is its recomputed score, it occurs in
`rs` under the stored model name with every *earlier* success strictly
worse, and it is less than or equal to every success seen so far. -/
def SelInv (rs : List (String × Option EstimateResult)) (s : SelState) :
    Prop :=
  (s.bestScore = none ↔ s.bestResult = none) ∧
  (s.bestResult = none → ∀ p ∈ rs, p.2 = none) ∧
  ∀ w, s.bestResult = some w →
    s.bestScore = some (scoreOf w) ∧
    (∃ l1 l2, rs = l1 ++ (s.bestModel, some w) :: l2 ∧
      ∀ p ∈ l1, ∀ r, p.2 = some r → scoreOf w < scoreOf r) ∧
    ∀ p ∈ rs, ∀ r, p.2 = some r → scoreOf w ≤ scoreOf r

/-- The per-key view of one `modelBreakdown` update: starting from an
absent (`none`) or present entry, an estimate always leaves `some` updated
entry behind. -/
def optStep (o : Option ModelEntry) (e : EstimateResult) :
    Option ModelEntry :=
  some (updEntry (o.getD entry0) e)

/-- A loop pass over models that all failed leaves the loop state as it
was: every iteration hits the `continue` branch. -/
lemma foldl_selStep_of_failures (rs : List (String × Option EstimateResult))
    (s : SelState) (h : ∀ p ∈ rs, p.2 = none) : rs.foldl selStep s = s := by
  induction rs generalizing s with
  | nil => rfl
  | cons p rs ih =>
    have hp : p.2 = none := h p (List.mem_cons_self p rs)
    have hs : selStep s p = s := by
      unfold selStep
      rw [hp]
    rw [List.foldl_cons, hs]
    exact ih s fun q hq => h q (List.mem_cons_of_mem p hq)

/-- C10: invoking the single-estimate operation with an empty or
whitespace-only prompt returns immediately: the state is unchanged and no
provider request is dispatched (`if (!input.trim()) return;`). -/
theorem emptyPrompt_noop (outcomes : String → Option EstimateResult) (now : ℕ)
    (st : AppState) (h : jsTrim st.input = "") :
    handleSingleEstimate outcomes now st = (st, []) := by
  simp [handleSingleEstimate, h]

theorem emptyPrompt_noop_witness :
    handleSingleEstimate (fun _ => none) 7
      { input := "   ", availableModels := ["gemini-2.0-flash"], chats := [],
        activeChatId := none, allEstimates := [], errorMsg := "",
        comparisonResults := none, showComparison := false, loading := false } =
      ({ input := "   ", availableModels := ["gemini-2.0-flash"], chats := [],
         activeChatId := none, allEstimates := [], errorMsg := "",
         comparisonResults := none, showComparison := false, loading := false },
       []) :=
  emptyPrompt_noop (fun _ => none) 7 _ (by decide)

/-- C8: aggregating an empty history yields zero total requests and zero
average accuracy; the `validAccuracies.length > 0` guard takes the `0`
branch, so no division by zero is performed. -/
theorem emptyHistory_stats :
    (calculateStats []).totalRequests = 0 ∧
      (calculateStats []).averageAccuracy = 0 := by
  exact ⟨rfl, rfl⟩

/-- C2 counterexample: the accuracy normalization is the identity on every
input greater than 1, so the input 200 yields 200, outside [0,100]. -/
theorem normalizeAccuracy_out_of_range :
    normalizeAccuracy 200 = 200 ∧ ¬ normalizeAccuracy 200 ≤ 100 := by
  refine ⟨?_, ?_⟩ <;> norm_num [normalizeAccuracy]

/-- C2 (amended): on inputs already within [0,100] the normalization stays
within [0,100], and normalizing 75 agrees with normalizing 0.75. -/
theorem normalizeAccuracy_range (a : ℚ) (h0 : 0 ≤ a) (h1 : a ≤ 100) :
    (0 ≤ normalizeAccuracy a ∧ normalizeAccuracy a ≤ 100) ∧
      normalizeAccuracy 75 = normalizeAccuracy 0.75 := by
  refine ⟨⟨?_, ?_⟩, by norm_num [normalizeAccuracy]⟩ <;>
    · unfold normalizeAccuracy
      split <;> linarith

theorem normalizeAccuracy_range_witness :
    (0 ≤ normalizeAccuracy 50 ∧ normalizeAccuracy 50 ≤ 100) ∧
      normalizeAccuracy 75 = normalizeAccuracy 0.75 :=
  normalizeAccuracy_range 50 (by norm_num) (by norm_num)

/-- C4 counterexample: with two configured providers both failing, the
selection ends with no winner, but no failures list of length 2 exists
anywhere in the outcome: failed calls are `continue`d over and recorded
nowhere, so the only per-candidate list (`comparisonResults`) is empty. -/
theorem allFailures_no_failures_list :
    (runSelection [("gemini-2.0-flash", none),
        ("mistral-7b-openrouter", none)]).bestResult = none ∧
      (runSelection [("gemini-2.0-flash", none),
        ("mistral-7b-openrouter", none)]).comparisonResults.length = 0 ∧
      (runSelection [("gemini-2.0-flash", none),
        ("mistral-7b-openrouter", none)]).comparisonResults.length ≠ 2 := by
  refine ⟨rfl, rfl, by decide⟩

/-- C4 (amended): if every configured provider fails, the handler reaches
the distinguishable no-winner terminal state: the all-failed error message
is set, no chat message or estimate is recorded, the comparison state is
untouched, loading is cleared, and a request was dispatched to every
provider; no exception escapes (every branch returns a state).  No
failures list is produced. -/
theorem allFailures_outcome (outcomes : String → Option EstimateResult)
    (now : ℕ) (st : AppState)
    (hin : jsTrim st.input ≠ "")
    (himg : detectPromptType st.input ≠ "image")
    (hne : st.availableModels ≠ [])
    (hfail : ∀ m ∈ st.availableModels, outcomes m = none) :
    (handleSingleEstimate outcomes now st).1.errorMsg =
      "No successful results from any model. Please check your API keys and ensure models are available." ∧
      (handleSingleEstimate outcomes now st).1.chats = st.chats ∧
      (handleSingleEstimate outcomes now st).1.allEstimates = st.allEstimates ∧
      (handleSingleEstimate outcomes now st).1.comparisonResults =
        st.comparisonResults ∧
      (handleSingleEstimate outcomes now st).1.loading = false ∧
      (handleSingleEstimate outcomes now st).2 = st.availableModels := by
  have hsel : runSelection (st.availableModels.map fun m => (m, outcomes m)) =
      initSel (st.availableModels.map fun m => (m, outcomes m)) := by
    apply foldl_selStep_of_failures
    intro p hp
    obtain ⟨m, hm, rfl⟩ := List.mem_map.mp hp
    exact hfail m hm
  simp [handleSingleEstimate, hin, himg, hne, hsel, initSel,
    List.isEmpty_iff]

theorem allFailures_outcome_witness :
    (handleSingleEstimate (fun _ => none) 7
        { input := "hi", availableModels := ["gemini-2.0-flash"], chats := [],
          activeChatId := none, allEstimates := [], errorMsg := "",
          comparisonResults := none, showComparison := false,
          loading := false }).1.errorMsg =
      "No successful results from any model. Please check your API keys and ensure models are available." ∧
      (handleSingleEstimate (fun _ => none) 7
        { input := "hi", availableModels := ["gemini-2.0-flash"], chats := [],
          activeChatId := none, allEstimates := [], errorMsg := "",
          comparisonResults := none, showComparison := false,
          loading := false }).1.chats = [] ∧
      (handleSingleEstimate (fun _ => none) 7
        { input := "hi", availableModels := ["gemini-2.0-flash"], chats := [],
          activeChatId := none, allEstimates := [], errorMsg := "",
          comparisonResults := none, showComparison := false,
          loading := false }).1.allEstimates = [] ∧
      (handleSingleEstimate (fun _ => none) 7
        { input := "hi", availableModels := ["gemini-2.0-flash"], chats := [],
          activeChatId := none, allEstimates := [], errorMsg := "",
          comparisonResults := none, showComparison := false,
          loading := false }).1.comparisonResults = none ∧
      (handleSingleEstimate (fun _ => none) 7
        { input := "hi", availableModels := ["gemini-2.0-flash"], chats := [],
          activeChatId := none, allEstimates := [], errorMsg := "",
          comparisonResults := none, showComparison := false,
          loading := false }).1.loading = false ∧
      (handleSingleEstimate (fun _ => none) 7
        { input := "hi", availableModels := ["gemini-2.0-flash"], chats := [],
          activeChatId := none, allEstimates := [], errorMsg := "",
          comparisonResults := none, showComparison := false,
          loading := false }).2 = ["gemini-2.0-flash"] :=
  allFailures_outcome (fun _ => none) 7 _ (by decide) (by decide) (by decide)
    (fun m _ => rfl)

/-- A failed model leaves the loop state untouched. -/
lemma selStep_none (s : SelState) (name : String) :
    selStep s (name, none) = s := rfl

/-- A successful model records its comparison entry and takes over the
running best exactly when its score strictly beats the current one. -/
lemma selStep_some (s : SelState) (name : String) (r : EstimateResult) :
    selStep s (name, some r) =
      if beatsBest (scoreOf r) s.bestScore then
        { bestModel := name, bestResult := some r,
          bestScore := some (scoreOf r),
          comparisonResults :=
            s.comparisonResults ++ [⟨name, carbonOf r, accuracyDisplay r⟩] }
      else
        { s with comparisonResults :=
            s.comparisonResults ++ [⟨name, carbonOf r, accuracyDisplay r⟩] } := by
  rfl

/-- The code's score agrees with the spec's formula
`carbon + (1 - accuracy/100)` stated over the displayed (0-100) accuracy. -/
lemma scoreOf_eq (r : EstimateResult) :
    scoreOf r = carbonOf r + (1 - accuracyDisplay r / 100) := by
  unfold scoreOf accuracyNormalized accuracyDisplay normalizeAccuracy
  by_cases h : 1 < chatAcc r
  · rw [if_pos h, if_pos h]
  · rw [if_neg h, if_neg h, mul_div_assoc]
    norm_num

lemma selInv_init (rs : List (String × Option EstimateResult)) :
    SelInv [] (initSel rs) := by
  refine ⟨by simp [initSel], by simp, ?_⟩
  intro w hw
  simp [initSel] at hw

lemma selInv_step (rs : List (String × Option EstimateResult)) (s : SelState)
    (p : String × Option EstimateResult) (h : SelInv rs s) :
    SelInv (rs ++ [p]) (selStep s p) := by
  obtain ⟨name, o⟩ := p
  obtain ⟨h1, h2, h3⟩ := h
  cases o with
  | none =>
    rw [selStep_none]
    refine ⟨h1, ?_, ?_⟩
    · intro hbr q hq
      rcases List.mem_append.mp hq with hq | hq
      · exact h2 hbr q hq
      · rw [List.mem_singleton.mp hq]
    · intro w hw
      obtain ⟨hs, ⟨l1, l2, hsplit, hstrict⟩, hle⟩ := h3 w hw
      refine ⟨hs, ⟨l1, l2 ++ [(name, none)], ?_, hstrict⟩, ?_⟩
      · rw [hsplit]
        simp
      · intro q hq r hr
        rcases List.mem_append.mp hq with hq | hq
        · exact hle q hq r hr
        · rw [List.mem_singleton.mp hq] at hr
          cases hr
  | some r =>
    rw [selStep_some]
    rcases hbs : s.bestScore with _ | b
    · -- no success yet: the new result strictly beats +∞ and becomes best
      have hbr : s.bestResult = none := h1.mp hbs
      have hall := h2 hbr
      have hbb : beatsBest (scoreOf r) none = true := rfl
      rw [if_pos hbb]
      refine ⟨by simp, by simp, ?_⟩
      intro w hw
      simp only [Option.some.injEq] at hw
      subst hw
      refine ⟨by simp, ⟨rs, [], by simp, ?_⟩, ?_⟩
      · intro q hq r' hr'
        rw [hall q hq] at hr'
        cases hr'
      · intro q hq r' hr'
        rcases List.mem_append.mp hq with hq | hq
        · rw [hall q hq] at hr'
          cases hr'
        · rw [List.mem_singleton.mp hq] at hr'
          simp only [Option.some.injEq] at hr'
          rw [hr']
    · -- a best already exists
      have hbr : ∃ w0, s.bestResult = some w0 := by
        cases hres : s.bestResult with
        | none => exact absurd (h1.mpr hres) (by simp [hbs])
        | some w0 => exact ⟨w0, rfl⟩
      obtain ⟨w0, hw0⟩ := hbr
      obtain ⟨hs0, ⟨l1, l2, hsplit, hstrict⟩, hle⟩ := h3 w0 hw0
      have hb : b = scoreOf w0 := by
        rw [hbs] at hs0
        exact (Option.some.injEq _ _ ▸ hs0 : _)
      by_cases hlt : scoreOf r < b
      · have hbb : beatsBest (scoreOf r) (some b) = true := by
          simp [beatsBest, hlt]
        rw [if_pos hbb]
        refine ⟨by simp, by simp, ?_⟩
        intro w hw
        simp only [Option.some.injEq] at hw
        subst hw
        refine ⟨by simp, ⟨rs, [], by simp, ?_⟩, ?_⟩
        · intro q hq r' hr'
          have h1' := hle q hq r' hr'
          have h2' : scoreOf r < scoreOf w0 := hb ▸ hlt
          linarith
        · intro q hq r' hr'
          rcases List.mem_append.mp hq with hq | hq
          · have h1' := hle q hq r' hr'
            have h2' : scoreOf r < scoreOf w0 := hb ▸ hlt
            linarith
          · rw [List.mem_singleton.mp hq] at hr'
            simp only [Option.some.injEq] at hr'
            rw [hr']
      · have hbb : ¬ beatsBest (scoreOf r) (some b) = true := by
          simp [beatsBest, hlt]
        rw [if_neg hbb]
        refine ⟨⟨fun hc => absurd hc (by simp),
          fun hc => by rw [← hbs]; exact h1.mpr hc⟩, ?_, ?_⟩
        · intro hbr'
          simp only at hbr'
          rw [hw0] at hbr'
          cases hbr'
        · intro w hw
          simp only at hw
          rw [hw0] at hw
          simp only [Option.some.injEq] at hw
          subst hw
          refine ⟨by simpa [hbs] using hs0, ⟨l1, l2 ++ [(name, some r)], ?_, hstrict⟩, ?_⟩
          · simp only
            rw [hsplit]
            simp
          · intro q hq r' hr'
            rcases List.mem_append.mp hq with hq | hq
            · exact hle q hq r' hr'
            · rw [List.mem_singleton.mp hq] at hr'
              simp only [Option.some.injEq] at hr'
              rw [hr'] at hlt
              have := not_lt.mp hlt
              rw [hb] at this
              exact this

lemma selInv_foldl (l : List (String × Option EstimateResult)) :
    ∀ (rs : List (String × Option EstimateResult)) (s : SelState),
      SelInv rs s → SelInv (rs ++ l) (l.foldl selStep s) := by
  induction l with
  | nil => intro rs s h; simpa using h
  | cons p l ih =>
    intro rs s h
    rw [List.foldl_cons]
    have := ih (rs ++ [p]) (selStep s p) (selInv_step rs s p h)
    simpa using this

lemma selInv_run (rs : List (String × Option EstimateResult)) :
    SelInv rs (runSelection rs) := by
  have := selInv_foldl rs [] (initSel rs) (selInv_init rs)
  simpa [runSelection] using this

/-- C1: whenever the selection loop ends with a winner, the winner's score
`carbon + (1 - accuracy/100)` (accuracy in its displayed 0-100 form) is
less than or equal to the score of every successful candidate of the same
round. -/
theorem winner_minimal_score (rs : List (String × Option EstimateResult))
    (w : EstimateResult) (hw : (runSelection rs).bestResult = some w)
    (p : String × Option EstimateResult) (hp : p ∈ rs)
    (r : EstimateResult) (hr : p.2 = some r) :
    carbonOf w + (1 - accuracyDisplay w / 100) ≤
      carbonOf r + (1 - accuracyDisplay r / 100) := by
  rw [← scoreOf_eq, ← scoreOf_eq]
  exact ((selInv_run rs).2.2 w hw).2.2 p hp r hr

theorem winner_minimal_score_witness :
    carbonOf ⟨some 1, none, none, none, none, none, "", none, none⟩ +
        (1 - accuracyDisplay
          ⟨some 1, none, none, none, none, none, "", none, none⟩ / 100) ≤
      carbonOf ⟨some 2, none, none, none, none, none, "", none, none⟩ +
        (1 - accuracyDisplay
          ⟨some 2, none, none, none, none, none, "", none, none⟩ / 100) :=
  winner_minimal_score
    [("a", some ⟨some 1, none, none, none, none, none, "", none, none⟩),
     ("b", some ⟨some 2, none, none, none, none, none, "", none, none⟩)]
    ⟨some 1, none, none, none, none, none, "", none, none⟩
    (by
      have hni : ¬ scoreOf
          (⟨some 2, none, none, none, none, none, "", none, none⟩ :
            EstimateResult) <
          scoreOf (⟨some 1, none, none, none, none, none, "", none, none⟩ :
            EstimateResult) := by
        norm_num [scoreOf, carbonOf, chatAcc, accuracyNormalized, orQ]
      simp [runSelection, selStep, initSel, beatsBest, hni])
    ("b", some ⟨some 2, none, none, none, none, none, "", none, none⟩)
    (by simp)
    ⟨some 2, none, none, none, none, none, "", none, none⟩ rfl

/-- C3: the winner is the *first* success of the configured provider order
attaining the minimal score: it occurs in the round under the reported
best-model name, every success strictly before it scores strictly worse,
and every success of the round scores at least as much.  Consequently,
between two successes with identical scores the earlier provider in the
configured list wins; and since `runSelection` is a pure function of its
argument, the choice is identical across repeated runs on the same
inputs. -/
theorem winner_earliest_among_ties
    (rs : List (String × Option EstimateResult)) (w : EstimateResult)
    (hw : (runSelection rs).bestResult = some w) :
    ∃ l1 l2, rs = l1 ++ ((runSelection rs).bestModel, some w) :: l2 ∧
      (∀ p ∈ l1, ∀ r, p.2 = some r → scoreOf w < scoreOf r) ∧
      (∀ p ∈ rs, ∀ r, p.2 = some r → scoreOf w ≤ scoreOf r) := by
  obtain ⟨hs, ⟨l1, l2, hsplit, hstrict⟩, hle⟩ := (selInv_run rs).2.2 w hw
  exact ⟨l1, l2, hsplit, hstrict, hle⟩

theorem winner_earliest_among_ties_witness :
    ∃ l1 l2,
      [("a", some (⟨some 1, none, none, none, none, none, "", none, none⟩ :
          EstimateResult)),
       ("b", some (⟨some 1, none, none, none, none, none, "", none, none⟩ :
          EstimateResult))] =
        l1 ++ ((runSelection
          [("a", some ⟨some 1, none, none, none, none, none, "", none, none⟩),
           ("b", some ⟨some 1, none, none, none, none, none, "", none, none⟩)]).bestModel,
          some (⟨some 1, none, none, none, none, none, "", none, none⟩ :
            EstimateResult)) :: l2 ∧
      (∀ p ∈ l1, ∀ r, p.2 = some r →
        scoreOf ⟨some 1, none, none, none, none, none, "", none, none⟩ <
          scoreOf r) ∧
      (∀ p ∈
        [("a", some (⟨some 1, none, none, none, none, none, "", none, none⟩ :
            EstimateResult)),
         ("b", some (⟨some 1, none, none, none, none, none, "", none, none⟩ :
            EstimateResult))], ∀ r, p.2 = some r →
        scoreOf ⟨some 1, none, none, none, none, none, "", none, none⟩ ≤
          scoreOf r) :=
  winner_earliest_among_ties
    [("a", some ⟨some 1, none, none, none, none, none, "", none, none⟩),
     ("b", some ⟨some 1, none, none, none, none, none, "", none, none⟩)]
    ⟨some 1, none, none, none, none, none, "", none, none⟩
    (by
      have hni : ¬ scoreOf
          (⟨some 1, none, none, none, none, none, "", none, none⟩ :
            EstimateResult) <
          scoreOf (⟨some 1, none, none, none, none, none, "", none, none⟩ :
            EstimateResult) := lt_irrefl _
      simp [runSelection, selStep, initSel, beatsBest, hni])

/-- Every entry of the breakdown built by `updateAssoc` satisfies `P`
provided fresh entries do and `P` is preserved by updates. -/
lemma updateAssoc_pres (P : ModelEntry → Prop)
    (hnew : ∀ e, P (updEntry entry0 e))
    (hstep : ∀ en e, P en → P (updEntry en e)) (k : String)
    (e : EstimateResult) :
    ∀ m : List (String × ModelEntry), (∀ q ∈ m, P q.2) →
      ∀ q ∈ updateAssoc k e m, P q.2 := by
  intro m
  induction m with
  | nil =>
    intro _ q hq
    rw [List.mem_singleton.mp hq]
    exact hnew e
  | cons p m ih =>
    intro hm q hq
    obtain ⟨k', en⟩ := p
    rw [updateAssoc] at hq
    by_cases hk : k' = k
    · rw [if_pos hk] at hq
      rcases List.mem_cons.mp hq with rfl | hq
      · exact hstep en e (hm (k', en) (List.mem_cons_self _ _))
      · exact hm q (List.mem_cons_of_mem _ hq)
    · rw [if_neg hk] at hq
      rcases List.mem_cons.mp hq with rfl | hq
      · exact hm (k', en) (List.mem_cons_self _ _)
      · exact ih (fun q hq => hm q (List.mem_cons_of_mem _ hq)) q hq

/-- Entry invariants carry over the whole `forEach` that builds
`modelBreakdown`. -/
lemma breakdownOf_pres (P : ModelEntry → Prop)
    (hnew : ∀ e, P (updEntry entry0 e))
    (hstep : ∀ en e, P en → P (updEntry en e)) (l : List EstimateResult) :
    ∀ q ∈ breakdownOf l, P q.2 := by
  suffices h : ∀ m : List (String × ModelEntry), (∀ q ∈ m, P q.2) →
      ∀ q ∈ l.foldl (fun m e => updateAssoc (modelKey e) e m) m, P q.2 by
    exact h [] (by simp)
  induction l with
  | nil => intro m hm; simpa using hm
  | cons e l ih =>
    intro m hm
    rw [List.foldl_cons]
    exact ih _ (updateAssoc_pres P hnew hstep (modelKey e) e m hm)

/-- C6: every accuracy that enters the global average is within [0,100]
(absent, zero, negative or out-of-range accuracies are filtered out, never
coerced to 0); the average is taken over exactly this filtered list (and is
0 when it is empty); and each provider's `accuracyCount` never exceeds its
request `count`, because the accuracy sum and counter are bumped only when
the same validity guard passes. -/
theorem validAccuracy_aggregation (l : List EstimateResult) :
    (∀ a ∈ validAccuracies l, 0 ≤ a ∧ a ≤ 100) ∧
    ((calculateStats l).averageAccuracy =
      if 0 < (validAccuracies l).length then
        (validAccuracies l).foldl (· + ·) 0 / ((validAccuracies l).length : ℚ)
      else 0) ∧
    (∀ q ∈ (calculateStats l).modelBreakdown,
      q.2.accuracyCount ≤ q.2.count) := by
  refine ⟨?_, rfl, ?_⟩
  · intro a ha
    obtain ⟨e, _, hpick⟩ := List.mem_filterMap.mp ha
    rcases hda : dashAcc e with _ | a'
    · simp [pickAcc, hda] at hpick
    · simp only [pickAcc, hda] at hpick
      by_cases hc : a' ≠ 0 ∧ 0 ≤ a' ∧ a' ≤ 100
      · rw [if_pos hc] at hpick
        rw [← (Option.some.injEq a' a).mp hpick]
        exact ⟨hc.2.1, hc.2.2⟩
      · rw [if_neg hc] at hpick
        cases hpick
  · intro q hq
    refine breakdownOf_pres (fun en => en.accuracyCount ≤ en.count) ?_ ?_ l q hq
    · intro e
      simp only [updEntry, entry0]
      split <;> omega
    · intro en e hP
      simp only [updEntry]
      split <;> omega

theorem validAccuracy_aggregation_witness :
    ((calculateStats
        [⟨none, none, none, none, some 50, none, "", some "m", none⟩]).averageAccuracy =
      if 0 < (validAccuracies
          [⟨none, none, none, none, some 50, none, "", some "m", none⟩]).length then
        (validAccuracies
          [⟨none, none, none, none, some 50, none, "", some "m", none⟩]).foldl
            (· + ·) 0 /
          ((validAccuracies
            [⟨none, none, none, none, some 50, none, "", some "m", none⟩]).length : ℚ)
      else 0) ∧
      (0 ≤ (50 : ℚ) ∧ (50 : ℚ) ≤ 100) :=
  ⟨(validAccuracy_aggregation
      [⟨none, none, none, none, some 50, none, "", some "m", none⟩]).2.1,
   (validAccuracy_aggregation
      [⟨none, none, none, none, some 50, none, "", some "m", none⟩]).1 50
     (by decide)⟩

/-- The `reduce((sum, e) => sum + f(e), b)` totals are `b` plus the sum of
the mapped values. -/
lemma foldl_add_f (f : EstimateResult → ℚ) :
    ∀ (l : List EstimateResult) (b : ℚ),
      l.foldl (fun s e => s + f e) b = b + (l.map f).sum := by
  intro l
  induction l with
  | nil => intro b; simp
  | cons e l ih =>
    intro b
    rw [List.foldl_cons, ih, List.map_cons, List.sum_cons]
    ring

/-- A left fold of `+` over rationals is the initial value plus the sum. -/
lemma foldl_addQ : ∀ (l : List ℚ) (b : ℚ), l.foldl (· + ·) b = b + l.sum := by
  intro l
  induction l with
  | nil => intro b; simp
  | cons x l ih =>
    intro b
    rw [List.foldl_cons, ih, List.sum_cons]
    ring

/-- Two breakdown updates of the same entry commute: each field is a sum
of independent contributions. -/
lemma updEntry_comm (b : ModelEntry) (x y : EstimateResult) :
    updEntry (updEntry b x) y = updEntry (updEntry b y) x := by
  simp only [updEntry, ModelEntry.mk.injEq]
  exact ⟨by ring, by ring, by ring, by ring, by ring⟩

/-- Per-key breakdown folds are invariant under permutation of the
estimates hitting that key. -/
lemma foldl_optStep_perm {es1 es2 : List EstimateResult}
    (h : es1.Perm es2) : ∀ o, es1.foldl optStep o = es2.foldl optStep o := by
  induction h with
  | nil => intro o; rfl
  | cons x _ ih =>
    intro o
    rw [List.foldl_cons, List.foldl_cons, ih]
  | swap x y l =>
    intro o
    rw [List.foldl_cons, List.foldl_cons, List.foldl_cons, List.foldl_cons]
    have : optStep (optStep o y) x = optStep (optStep o x) y := by
      simp only [optStep, Option.getD_some]
      rw [updEntry_comm]
    rw [this]
  | trans _ _ ih1 ih2 =>
    intro o
    rw [ih1, ih2]

/-- Looking up the key just updated yields the updated (or fresh) entry. -/
lemma lookup_updateAssoc_self :
    ∀ (m : List (String × ModelEntry)) (k : String) (e : EstimateResult),
      List.lookup k (updateAssoc k e m) =
        some (updEntry ((List.lookup k m).getD entry0) e) := by
  intro m
  induction m with
  | nil => intro k e; simp [updateAssoc, List.lookup]
  | cons p m ih =>
    intro k e
    obtain ⟨k', en⟩ := p
    by_cases hk : k' = k
    · subst hk
      simp [updateAssoc, List.lookup]
    · have hk' : (k == k') = false := by
        simp [BEq.beq]
        exact fun h => hk h.symm
      rw [updateAssoc, if_neg hk]
      simp [List.lookup, hk', ih]

/-- Updating one key leaves lookups of any other key unchanged. -/
lemma lookup_updateAssoc_ne {k k0 : String} (hne : k ≠ k0) :
    ∀ (m : List (String × ModelEntry)) (e : EstimateResult),
      List.lookup k0 (updateAssoc k e m) = List.lookup k0 m := by
  intro m
  induction m with
  | nil =>
    intro e
    have hk' : (k0 == k) = false := by
      simp [BEq.beq]
      exact fun h => hne h.symm
    simp [updateAssoc, List.lookup, hk']
  | cons p m ih =>
    intro e
    obtain ⟨k', en⟩ := p
    by_cases hk : k' = k
    · subst hk
      have hk' : (k0 == k') = false := by
        simp [BEq.beq]
        exact fun h => hne h.symm
      simp [updateAssoc, List.lookup, hk']
    · rw [updateAssoc, if_neg hk]
      by_cases hk0 : k0 = k'
      · subst hk0
        simp [List.lookup]
      · have hk0' : (k0 == k') = false := by
          simp [BEq.beq]
          exact hk0
        simp [List.lookup, hk0', ih]

/-- Characterization of `modelBreakdown` lookups: the entry stored under a
key is the per-key fold of exactly the estimates whose model key matches. -/
lemma lookup_breakdown_foldl :
    ∀ (l : List EstimateResult) (m : List (String × ModelEntry)) (k : String),
      List.lookup k (l.foldl (fun m e => updateAssoc (modelKey e) e m) m) =
        (l.filter fun e => modelKey e == k).foldl optStep (List.lookup k m) := by
  intro l
  induction l with
  | nil => intro m k; simp
  | cons e l ih =>
    intro m k
    rw [List.foldl_cons]
    by_cases hk : modelKey e = k
    · subst hk
      rw [ih]
      have hf : ((e :: l).filter fun e' => modelKey e' == modelKey e) =
          e :: (l.filter fun e' => modelKey e' == modelKey e) := by
        simp [List.filter_cons]
      rw [hf, List.foldl_cons]
      rw [lookup_updateAssoc_self]
      rfl
    · rw [ih]
      have hf : ((e :: l).filter fun e' => modelKey e' == k) =
          l.filter fun e' => modelKey e' == k := by
        simp [List.filter_cons, hk]
      rw [hf, lookup_updateAssoc_ne hk]

/-- `modelBreakdown` as a mapping: each key holds the per-key fold of the
matching estimates, `none` when no estimate hit the key. -/
lemma lookup_breakdownOf (l : List EstimateResult) (k : String) :
    List.lookup k (breakdownOf l) =
      (l.filter fun e => modelKey e == k).foldl optStep none := by
  rw [breakdownOf, lookup_breakdown_foldl]
  rfl

/-- C7: aggregation is order-independent.  Permuting the history leaves
every component of the aggregate unchanged: the request count, the carbon
and energy totals, the average accuracy, and the per-provider breakdown
read as a mapping (pointwise lookup equality). -/
theorem aggregate_perm_invariant (l1 l2 : List EstimateResult)
    (h : l1.Perm l2) :
    (calculateStats l1).totalRequests = (calculateStats l2).totalRequests ∧
    (calculateStats l1).totalCarbon = (calculateStats l2).totalCarbon ∧
    (calculateStats l1).totalEnergy = (calculateStats l2).totalEnergy ∧
    (calculateStats l1).averageAccuracy =
      (calculateStats l2).averageAccuracy ∧
    ∀ k, List.lookup k (calculateStats l1).modelBreakdown =
      List.lookup k (calculateStats l2).modelBreakdown := by
  have hva : (validAccuracies l1).Perm (validAccuracies l2) :=
    h.filterMap pickAcc
  refine ⟨h.length_eq, ?_, ?_, ?_, ?_⟩
  · show l1.foldl (fun s e => s + orQ e.carbon_emitted_kgco2 0) 0 =
      l2.foldl (fun s e => s + orQ e.carbon_emitted_kgco2 0) 0
    rw [foldl_add_f, foldl_add_f, (h.map _).sum_eq]
  · show l1.foldl (fun s e => s + orQ e.energy_consumed_kwh 0) 0 =
      l2.foldl (fun s e => s + orQ e.energy_consumed_kwh 0) 0
    rw [foldl_add_f, foldl_add_f, (h.map _).sum_eq]
  · show (if 0 < (validAccuracies l1).length then
        (validAccuracies l1).foldl (· + ·) 0 /
          ((validAccuracies l1).length : ℚ)
      else 0) =
      (if 0 < (validAccuracies l2).length then
        (validAccuracies l2).foldl (· + ·) 0 /
          ((validAccuracies l2).length : ℚ)
      else 0)
    rw [foldl_addQ, foldl_addQ, hva.sum_eq, hva.length_eq]
  · intro k
    show List.lookup k (breakdownOf l1) = List.lookup k (breakdownOf l2)
    rw [lookup_breakdownOf, lookup_breakdownOf]
    exact foldl_optStep_perm (h.filter _) none

theorem aggregate_perm_invariant_witness :
    (calculateStats
        [⟨some 1, none, some 2, none, some 50, none, "", some "m", none⟩,
         ⟨some 3, none, some 4, none, some 60, none, "", some "n", none⟩]).totalRequests =
      (calculateStats
        [⟨some 3, none, some 4, none, some 60, none, "", some "n", none⟩,
         ⟨some 1, none, some 2, none, some 50, none, "", some "m", none⟩]).totalRequests ∧
    (calculateStats
        [⟨some 1, none, some 2, none, some 50, none, "", some "m", none⟩,
         ⟨some 3, none, some 4, none, some 60, none, "", some "n", none⟩]).totalCarbon =
      (calculateStats
        [⟨some 3, none, some 4, none, some 60, none, "", some "n", none⟩,
         ⟨some 1, none, some 2, none, some 50, none, "", some "m", none⟩]).totalCarbon ∧
    (calculateStats
        [⟨some 1, none, some 2, none, some 50, none, "", some "m", none⟩,
         ⟨some 3, none, some 4, none, some 60, none, "", some "n", none⟩]).averageAccuracy =
      (calculateStats
        [⟨some 3, none, some 4, none, some 60, none, "", some "n", none⟩,
         ⟨some 1, none, some 2, none, some 50, none, "", some "m", none⟩]).averageAccuracy ∧
    List.lookup "m" (calculateStats
        [⟨some 1, none, some 2, none, some 50, none, "", some "m", none⟩,
         ⟨some 3, none, some 4, none, some 60, none, "", some "n", none⟩]).modelBreakdown =
      List.lookup "m" (calculateStats
        [⟨some 3, none, some 4, none, some 60, none, "", some "n", none⟩,
         ⟨some 1, none, some 2, none, some 50, none, "", some "m", none⟩]).modelBreakdown :=
  ⟨(aggregate_perm_invariant _ _ (List.Perm.swap _ _ [])).1,
   (aggregate_perm_invariant _ _ (List.Perm.swap _ _ [])).2.1,
   (aggregate_perm_invariant _ _ (List.Perm.swap _ _ [])).2.2.2.1,
   (aggregate_perm_invariant _ _ (List.Perm.swap _ _ [])).2.2.2.2 "m"⟩

/-- Inserting never invents elements. -/
lemma mem_insertByCountDesc {z x : TopModel} :
    ∀ l : List TopModel, z ∈ insertByCountDesc x l → z = x ∨ z ∈ l := by
  intro l
  induction l with
  | nil =>
    intro hz
    exact Or.inl (List.mem_singleton.mp hz)
  | cons y ys ih =>
    intro hz
    rw [insertByCountDesc] at hz
    by_cases hc : y.count < x.count
    · rw [if_pos hc] at hz
      rcases List.mem_cons.mp hz with rfl | hz
      · exact Or.inl rfl
      · exact Or.inr hz
    · rw [if_neg hc] at hz
      rcases List.mem_cons.mp hz with rfl | hz
      · exact Or.inr (List.mem_cons_self _ _)
      · rcases ih hz with hz | hz
        · exact Or.inl hz
        · exact Or.inr (List.mem_cons_of_mem _ hz)

/-- Insertion preserves the count-descending order. -/
lemma sorted_insertByCountDesc (x : TopModel) :
    ∀ l : List TopModel,
      List.Sorted (fun a b => b.count ≤ a.count) l →
      List.Sorted (fun a b => b.count ≤ a.count) (insertByCountDesc x l) := by
  intro l
  induction l with
  | nil => intro _; simp [insertByCountDesc]
  | cons y ys ih =>
    intro hs
    rw [List.sorted_cons] at hs
    obtain ⟨hy, hys⟩ := hs
    rw [insertByCountDesc]
    by_cases hc : y.count < x.count
    · rw [if_pos hc, List.sorted_cons]
      constructor
      · intro b hb
        rcases List.mem_cons.mp hb with rfl | hb
        · exact le_of_lt hc
        · exact le_trans (hy b hb) (le_of_lt hc)
      · rw [List.sorted_cons]
        exact ⟨hy, hys⟩
    · rw [if_neg hc, List.sorted_cons]
      constructor
      · intro b hb
        rcases mem_insertByCountDesc ys hb with rfl | hb
        · exact not_lt.mp hc
        · exact hy b hb
      · exact ih hys

/-- The stable sort by request count descending really is sorted. -/
lemma sorted_sortByCountDesc :
    ∀ l : List TopModel,
      List.Sorted (fun a b => b.count ≤ a.count) (sortByCountDesc l) := by
  intro l
  induction l with
  | nil => simp [sortByCountDesc]
  | cons x xs ih =>
    rw [sortByCountDesc]
    exact sorted_insertByCountDesc x _ ih

/-- Sorting never invents elements. -/
lemma mem_sortByCountDesc {z : TopModel} :
    ∀ l : List TopModel, z ∈ sortByCountDesc l → z ∈ l := by
  intro l
  induction l with
  | nil => intro hz; simpa [sortByCountDesc] using hz
  | cons x xs ih =>
    intro hz
    rw [sortByCountDesc] at hz
    rcases mem_insertByCountDesc _ hz with rfl | hz
    · exact List.mem_cons_self _ _
    · exact List.mem_cons_of_mem _ (ih hz)

/-- C9: the top-provider listing is sorted by request count descending;
every listed entry has a strictly positive request count, so its
carbon-per-request division `totalCarbon / count` never divides by zero;
and the mean-accuracy division is guarded: an entry with `accuracyCount =
0` reports average accuracy 0 instead of dividing. -/
theorem topModels_sorted_guarded (l : List EstimateResult) (hne : l ≠ []) :
    List.Sorted (fun a b => b.count ≤ a.count)
      (calculateStats l).topModels ∧
    (∀ p ∈ (calculateStats l).topModels, 0 < p.count) ∧
    (∀ q ∈ breakdownOf l, q.2.accuracyCount = 0 →
      (perfOf q).accuracyAvg = 0) := by
  refine ⟨sorted_sortByCountDesc _, ?_, ?_⟩
  · intro p hp
    have hp' : p ∈ (breakdownOf l).map perfOf :=
      mem_sortByCountDesc _ hp
    obtain ⟨q, hq, rfl⟩ := List.mem_map.mp hp'
    have h1 : 1 ≤ q.2.count := by
      refine breakdownOf_pres (fun en => 1 ≤ en.count) ?_ ?_ l q hq
      · intro e
        simp [updEntry]
      · intro en e _
        simp [updEntry]
    simpa [perfOf] using h1
  · intro q hq hz
    simp [perfOf, hz]

theorem topModels_sorted_guarded_witness :
    List.Sorted (fun a b => b.count ≤ a.count)
      (calculateStats
        [⟨none, none, none, none, some 50, none, "", some "m", none⟩]).topModels :=
  (topModels_sorted_guarded
    [⟨none, none, none, none, some 50, none, "", some "m", none⟩]
    (List.cons_ne_nil _ _)).1
